import Mathlib

/-!
Verification of the exCeption library (exception.h): a nested, stack-discipline
exception mechanism for ANSI C built from the macros try, throw, catch and
endcatch over a global linked list of nodes (_exc_head).

The embedding models the documented protocol
  try { body } catch(type, var) { handler } endcatch;
as a statement language with a fuel-indexed interpreter.  A node carries the
identity of its captured jmp_buf and its stored exception; the process-wide
list _exc_head is the stack field of the interpreter state.  A longjmp is an
Outcome.jump carrying the identity of the jmp_buf it targets; it is delivered
by the tryCatch construct whose node captured that identity.  Ghost fields
record the emitted output lines, the number of endcatch pops and the list of
malloc-ed struct exception_t objects, so that the observable behavior of each
macro can be stated exactly.
-/

/-- struct exception_t from exception.h: name, reason and a generic userdata
pointer (modelled as a numeric address, 0 for NULL). -/
structure exception_t where
  name : String
  reason : String
  userdata : Nat
deriving DecidableEq, Repr

/-- The values a program may throw: the demo driver throws int, string and
struct exception_t* payloads; vPtr models any other pointer payload. -/
inductive Val where
  | vInt (n : Int)
  | vStr (s : String)
  | vPtr (p : Nat)
  | vExc (e : exception_t)
deriving DecidableEq, Repr

/-- struct _exception_t_node: the jmp_buf captured at try (identified by a
unique number) and the exception slot written by throw.  The next field of the
source struct is the tail of the stack list. -/
structure ExcNode where
  jmpbuf : Nat
  exception : Option Val
deriving DecidableEq, Repr

/-- Interpreter state: stack is the linked list hanging off _exc_head (head =
top).  output collects printf lines; nextId supplies fresh jmp_buf identities;
pops counts executions of the pop in endcatch; allocs lists the
struct exception_t objects malloc-ed by raise_exception, in order. -/
structure ExcState where
  stack : List ExcNode
  output : List String
  nextId : Nat
  pops : Nat
  allocs : List exception_t
deriving DecidableEq, Repr

/-- Result of running a statement: normal completion, a longjmp in flight to
the jmp_buf with the given identity, or undefined behavior (the null
dereference in endcatch when _exc_head is empty). -/
inductive Outcome where
  | normal (s : ExcState)
  | jump (target : Nat) (s : ExcState)
  | fault
deriving DecidableEq, Repr

/-- Statements of the embedded programs: skip, sequencing, printf, the throw
macro, the raise_exception macro, and the documented protected-region
construct try { body } catch(type, var) { handler } endcatch.  The handler is
a function of the value the catch macro reads from the exception slot of the
node at the top of the stack. -/
inductive Stmt where
  | skip
  | seq (a b : Stmt)
  | print (msg : String)
  | throwV (v : Val)
  | raiseExc (name reason : String) (userdata : Nat)
  | tryCatch (body : Stmt) (handler : Option Val → Stmt)

/-- The diagnostic line printed by the throw macro when _exc_head is empty. -/
def uncaughtMsg : String := "* Uncaught exception occured"

/-- The endcatch macro: pop _exc_head (new head is the next field of the old
head) and free the old head.  On an empty stack the source dereferences the
null _exc_head, which is undefined behavior: modelled as none. -/
def endcatchS (s : ExcState) : Option ExcState :=
  match s.stack with
  | [] => none
  | _ :: rest => some { s with stack := rest, pops := s.pops + 1 }

/-- The handler re-entry loop of a protected region.  After a longjmp to the
jmp_buf with identity nid is delivered, the catch block reads the exception
slot of the node at the top of the stack and runs the handler body; when the
handler completes, endcatch pops.  If the handler itself executes throw while
this node is still the top, the longjmp returns to the same setjmp and the
catch block runs again with the new exception: that is the recursive call.
ex runs one statement (the interpreter at the enclosing fuel). -/
def handleLoopF (ex : Stmt → ExcState → Option Outcome) :
    Nat → (Option Val → Stmt) → Nat → ExcState → Option Outcome
  | 0, _, _, _ => none
  | g+1, h, nid, s =>
    match s.stack with
    | [] => some .fault
    | n :: _ =>
      match ex (h n.exception) s with
      | some (.normal s2) =>
        match endcatchS s2 with
        | some s3 => some (.normal s3)
        | none => some .fault
      | some (.jump t s2) =>
        if t = nid then handleLoopF ex g h nid s2 else some (.jump t s2)
      | some .fault => some .fault
      | none => none

/-- Fuel-indexed interpreter.  skip and print are driver glue; throwV is the
throw macro (store into the top node and longjmp, or print the diagnostic and
fall through when the stack is empty); raiseExc is the raise_exception macro
(malloc a struct exception_t, fill its fields, then behave as throw of the
pointer to it); tryCatch is the documented try/catch/endcatch construct:
malloc a node, link it ahead of the old head, capture a fresh jmp_buf
identity, run the body, and on normal completion skip the catch block and run
endcatch, while a longjmp to this identity enters the catch block via
handleLoopF.  A longjmp to any other identity propagates. -/
def exec : Nat → Stmt → ExcState → Option Outcome
  | 0, _, _ => none
  | fuel+1, stmt, s =>
    match stmt with
    | .skip => some (.normal s)
    | .print m => some (.normal { s with output := s.output ++ [m] })
    | .seq a b =>
      match exec fuel a s with
      | some (.normal s1) => exec fuel b s1
      | some o => some o
      | none => none
    | .throwV v =>
      match s.stack with
      | [] => some (.normal { s with output := s.output ++ [uncaughtMsg] })
      | n :: rest =>
        some (.jump n.jmpbuf { s with stack := ⟨n.jmpbuf, some v⟩ :: rest })
    | .raiseExc nm r u =>
      match s.stack with
      | [] =>
        some (.normal { s with output := s.output ++ [uncaughtMsg],
                               allocs := s.allocs ++ [⟨nm, r, u⟩] })
      | n :: rest =>
        some (.jump n.jmpbuf
          { s with stack := ⟨n.jmpbuf, some (.vExc ⟨nm, r, u⟩)⟩ :: rest,
                   allocs := s.allocs ++ [⟨nm, r, u⟩] })
    | .tryCatch body h =>
      match exec fuel body
        { s with stack := ⟨s.nextId, none⟩ :: s.stack, nextId := s.nextId + 1 } with
      | some (.normal s2) =>
        match endcatchS s2 with
        | some s3 => some (.normal s3)
        | none => some .fault
      | some (.jump t s2) =>
        if t = s.nextId then handleLoopF (exec fuel) fuel h s.nextId s2
        else some (.jump t s2)
      | some .fault => some .fault
      | none => none

/-- The three facts the balance proof tracks for a statement interpreter ex:
normal completion restores the stack exactly; an escaping longjmp targets the
jmp_buf of the node that was the top on entry, whose exception slot now holds
the thrown value while the rest of the stack is untouched; and no undefined
behavior is reached. -/
def ExecOK (ex : Stmt → ExcState → Option Outcome) : Prop :=
  ∀ stmt s,
    (∀ s', ex stmt s = some (.normal s') → s'.stack = s.stack) ∧
    (∀ t s', ex stmt s = some (.jump t s') →
      ∃ n rest v, s.stack = n :: rest ∧ t = n.jmpbuf ∧
        s'.stack = ExcNode.mk n.jmpbuf (some v) :: rest) ∧
    ex stmt s ≠ some .fault

/-- The handler loop of a region whose node (identity nid) is the top of the
stack never lets a longjmp escape, never reaches undefined behavior, and on
normal completion has popped exactly that node. -/
theorem handleLoopF_ok (ex : Stmt → ExcState → Option Outcome) (hex : ExecOK ex) :
    ∀ g h nid v σ (s : ExcState), s.stack = ExcNode.mk nid v :: σ →
      (∀ s', handleLoopF ex g h nid s = some (.normal s') → s'.stack = σ) ∧
      (∀ t s', handleLoopF ex g h nid s ≠ some (.jump t s')) ∧
      handleLoopF ex g h nid s ≠ some .fault := by
  intro g
  induction g with
  | zero =>
    intro h nid v σ s hs
    simp [handleLoopF]
  | succ g ih =>
    intro h nid v σ s hs
    obtain ⟨hN, hJ, hF⟩ := hex (h v) s
    cases hrun : ex (h v) s with
    | none => simp [handleLoopF, hs, hrun]
    | some o =>
      cases o with
      | normal s2 =>
        have h2 : s2.stack = s.stack := hN s2 hrun
        simp [handleLoopF, hs, hrun, endcatchS, h2]
      | jump t s2 =>
        obtain ⟨n, rest, v2, hst, ht, hs2⟩ := hJ t s2 hrun
        have hcons : ExcNode.mk nid v :: σ = n :: rest := hs.symm.trans hst
        injection hcons with hn hrest
        subst hn
        subst hrest
        have hEq : handleLoopF ex (g+1) h nid s = handleLoopF ex g h nid s2 := by
          simp [handleLoopF, hs, hrun, ht]
        rw [hEq]
        exact ih h nid (some v2) σ s2 hs2
      | fault => exact absurd hrun hF

/-- Master lemma: the interpreter satisfies ExecOK at every fuel. -/
theorem exec_ok : ∀ fuel, ExecOK (exec fuel) := by
  intro fuel
  induction fuel with
  | zero =>
    intro stmt s
    simp [exec]
  | succ fuel ih =>
    intro stmt s
    cases stmt with
    | skip => simp [exec]
    | print m => simp [exec]
    | seq a b =>
      obtain ⟨hNa, hJa, hFa⟩ := ih a s
      cases hA : exec fuel a s with
      | none => simp [exec, hA]
      | some o =>
        cases o with
        | normal s1 =>
          have h1 : s1.stack = s.stack := hNa s1 hA
          obtain ⟨hNb, hJb, hFb⟩ := ih b s1
          have hstep : exec (fuel+1) (.seq a b) s = exec fuel b s1 := by
            simp [exec, hA]
          refine ⟨?_, ?_, ?_⟩
          · intro s' hrun
            rw [hstep] at hrun
            exact (hNb s' hrun).trans h1
          · intro t s' hrun
            rw [hstep] at hrun
            obtain ⟨n, rest, v, hst, ht, hs'⟩ := hJb t s' hrun
            exact ⟨n, rest, v, h1.symm.trans hst, ht, hs'⟩
          · intro hrun
            rw [hstep] at hrun
            exact hFb hrun
        | jump t1 s1 =>
          have hstep : exec (fuel+1) (.seq a b) s = some (.jump t1 s1) := by
            simp [exec, hA]
          refine ⟨?_, ?_, ?_⟩
          · intro s' hrun
            rw [hstep] at hrun
            simp at hrun
          · intro t s' hrun
            rw [hstep] at hrun
            injection hrun with h2
            injection h2 with hta hsa
            subst hta
            subst hsa
            exact hJa _ _ hA
          · intro hrun
            rw [hstep] at hrun
            simp at hrun
        | fault => exact absurd hA hFa
    | throwV v =>
      cases hst : s.stack with
      | nil => simp [exec, hst]
      | cons n rest =>
        have hstep : exec (fuel+1) (.throwV v) s =
            some (.jump n.jmpbuf { s with stack := ⟨n.jmpbuf, some v⟩ :: rest }) := by
          simp [exec, hst]
        refine ⟨?_, ?_, ?_⟩
        · intro s' hrun
          rw [hstep] at hrun
          simp at hrun
        · intro t s' hrun
          rw [hstep] at hrun
          injection hrun with h2
          injection h2 with hta hsa
          subst hta
          subst hsa
          exact ⟨n, rest, v, rfl, rfl, rfl⟩
        · intro hrun
          rw [hstep] at hrun
          simp at hrun
    | raiseExc nm r u =>
      cases hst : s.stack with
      | nil => simp [exec, hst]
      | cons n rest =>
        have hstep : exec (fuel+1) (.raiseExc nm r u) s =
            some (.jump n.jmpbuf
              { s with stack := ⟨n.jmpbuf, some (.vExc ⟨nm, r, u⟩)⟩ :: rest,
                       allocs := s.allocs ++ [⟨nm, r, u⟩] }) := by
          simp [exec, hst]
        refine ⟨?_, ?_, ?_⟩
        · intro s' hrun
          rw [hstep] at hrun
          simp at hrun
        · intro t s' hrun
          rw [hstep] at hrun
          injection hrun with h2
          injection h2 with hta hsa
          subst hta
          subst hsa
          exact ⟨n, rest, .vExc ⟨nm, r, u⟩, rfl, rfl, rfl⟩
        · intro hrun
          rw [hstep] at hrun
          simp at hrun
    | tryCatch body h =>
      obtain ⟨hNb, hJb, hFb⟩ :=
        ih body { s with stack := ⟨s.nextId, none⟩ :: s.stack, nextId := s.nextId + 1 }
      cases hB : exec fuel body
          { s with stack := ⟨s.nextId, none⟩ :: s.stack, nextId := s.nextId + 1 } with
      | none => simp [exec, hB]
      | some o =>
        cases o with
        | normal s2 =>
          have h2 : s2.stack = ⟨s.nextId, none⟩ :: s.stack := hNb s2 hB
          have hstep : exec (fuel+1) (.tryCatch body h) s =
              some (.normal { s2 with stack := s.stack, pops := s2.pops + 1 }) := by
            simp [exec, hB, endcatchS, h2]
          refine ⟨?_, ?_, ?_⟩
          · intro s' hrun
            rw [hstep] at hrun
            injection hrun with h3
            injection h3 with hsa
            subst hsa
            rfl
          · intro t s' hrun
            rw [hstep] at hrun
            simp at hrun
          · intro hrun
            rw [hstep] at hrun
            simp at hrun
        | jump t s2 =>
          obtain ⟨n, rest, v, hstB, htB, hs2⟩ := hJb t s2 hB
          have hcons : ExcNode.mk s.nextId none :: s.stack = n :: rest := hstB
          injection hcons with hn hrest
          subst hn
          subst hrest
          have hstep : exec (fuel+1) (.tryCatch body h) s =
              handleLoopF (exec fuel) fuel h s.nextId s2 := by
            simp [exec, hB, htB]
          obtain ⟨hLN, hLJ, hLF⟩ :=
            handleLoopF_ok (exec fuel) ih fuel h s.nextId (some v) s.stack s2 hs2
          refine ⟨?_, ?_, ?_⟩
          · intro s' hrun
            rw [hstep] at hrun
            exact hLN s' hrun
          · intro t' s' hrun
            rw [hstep] at hrun
            exact absurd hrun (hLJ t' s')
          · intro hrun
            rw [hstep] at hrun
            exact hLF hrun
        | fault => exact absurd hB hFb

/-- C1: for every payload value v, entering a protected region and signaling v
from within its dynamic extent (with that region on top of the Region Stack)
invokes the handler clause of that region with a reinterpreted value equal to
v: whatever observation f the handler applies to the caught value, the line it
prints is f applied to exactly the signaled payload, the region is popped, and
the surrounding stack is restored. -/
theorem c1_signal_value_received (fuel : Nat) (v : Val) (f : Option Val → String)
    (s : ExcState) :
    exec (fuel+3) (.tryCatch (.throwV v) (fun c => .print (f c))) s
    = some (.normal ⟨s.stack, s.output ++ [f (some v)], s.nextId + 1, s.pops + 1, s.allocs⟩) := by
  simp [exec, handleLoopF, endcatchS]

/-- C2: for every starting Region Stack and every nesting depth (any body,
any handler), the Region Stack depth after a complete protected-region
activation (entered and exited via either the normal-completion path or the
signaled path, ending in the endcatch pop) equals the depth immediately
before that activation. -/
theorem c2_stack_balance (fuel : Nat) (body : Stmt) (h : Option Val → Stmt)
    (s s' : ExcState)
    (hrun : exec fuel (.tryCatch body h) s = some (.normal s')) :
    s'.stack.length = s.stack.length := by
  have hst := (exec_ok fuel (.tryCatch body h) s).1 s' hrun
  rw [hst]

/-- Witness for C2 at a concrete input: a nested pair of regions entered with
one region already open; after the inner region signals 5 and both regions
exit, the stack depth is again 1. -/
theorem c2_stack_balance_witness :
    exec 9 (.tryCatch (.tryCatch (.throwV (.vInt 5)) (fun _ => .print "inner got 5"))
        (fun _ => .print "outer")) ⟨[⟨100, none⟩], [], 101, 0, []⟩
      = some (.normal ⟨[⟨100, none⟩], ["inner got 5"], 103, 2, []⟩) ∧
    (⟨[⟨100, none⟩], ["inner got 5"], 103, 2, []⟩ : ExcState).stack.length
      = (⟨[⟨100, none⟩], [], 101, 0, []⟩ : ExcState).stack.length :=
  ⟨rfl, c2_stack_balance 9 (.tryCatch (.throwV (.vInt 5)) (fun _ => .print "inner got 5"))
    (fun _ => .print "outer") ⟨[⟨100, none⟩], [], 101, 0, []⟩
    ⟨[⟨100, none⟩], ["inner got 5"], 103, 2, []⟩ rfl⟩

/-- C3: a signal always transfers to the innermost open region, the top of the
Region Stack at signal time.  First conjunct: throw on a non-empty stack jumps
to the jmp_buf of the head node.  Second conjunct: with nested regions, a
signal inside the inner region invokes only the inner handler (the outer
observation fo never appears in the output).  Third conjunct: a signal raised
after the inner region has exited normally invokes exactly the outer handler
with the signaled value. -/
theorem c3_innermost_target :
    (∀ (v : Val) (n : ExcNode) (rest : List ExcNode) (o : List String) (i p : Nat)
       (a : List exception_t),
       exec 1 (.throwV v) ⟨n :: rest, o, i, p, a⟩
         = some (.jump n.jmpbuf ⟨⟨n.jmpbuf, some v⟩ :: rest, o, i, p, a⟩)) ∧
    (∀ (fuel : Nat) (v : Val) (fi fo : Option Val → String) (s : ExcState),
       exec (fuel+5) (.tryCatch (.tryCatch (.throwV v) (fun c => .print (fi c)))
           (fun c => .print (fo c))) s
         = some (.normal ⟨s.stack, s.output ++ [fi (some v)], s.nextId + 2, s.pops + 2, s.allocs⟩)) ∧
    (∀ (fuel : Nat) (v : Val) (fi fo : Option Val → String) (s : ExcState),
       exec (fuel+5) (.tryCatch (.seq (.tryCatch .skip (fun c => .print (fi c)))
           (.throwV v)) (fun c => .print (fo c))) s
         = some (.normal ⟨s.stack, s.output ++ [fo (some v)], s.nextId + 2, s.pops + 2, s.allocs⟩)) := by
  refine ⟨?_, ?_, ?_⟩
  · intro v n rest o i p a
    simp [exec]
  · intro fuel v fi fo s
    simp [exec, handleLoopF, endcatchS]
  · intro fuel v fi fo s
    simp [exec, handleLoopF, endcatchS]

/-- C4: a signal on an empty Region Stack is an uncaught signal: exactly one
diagnostic line is emitted, no transfer occurs, the process does not abort,
the stack remains empty, and execution continues at the statement after the
signal call. -/
theorem c4_uncaught_signal_continues (fuel : Nat) (v : Val) (k : Stmt)
    (o : List String) (i p : Nat) (a : List exception_t) :
    exec (fuel+2) (.seq (.throwV v) k) ⟨[], o, i, p, a⟩
    = exec (fuel+1) k ⟨[], o ++ [uncaughtMsg], i, p, a⟩ := by
  simp [exec]

/-- C5: on a non-empty Region Stack, a signal writes the payload into the top
node and does not change the shape of the stack: the same node (same jmp_buf
identity) remains the top, the remaining nodes are untouched, and no pop
happens; the node is removed only by the endcatch pop. -/
theorem c5_signal_preserves_shape :
    (∀ (v : Val) (n : ExcNode) (rest : List ExcNode) (o : List String) (i p : Nat)
       (a : List exception_t),
       exec 1 (.throwV v) ⟨n :: rest, o, i, p, a⟩
         = some (.jump n.jmpbuf ⟨⟨n.jmpbuf, some v⟩ :: rest, o, i, p, a⟩)) ∧
    (∀ (n : ExcNode) (rest : List ExcNode) (o : List String) (i p : Nat)
       (a : List exception_t),
       endcatchS ⟨n :: rest, o, i, p, a⟩ = some ⟨rest, o, i, p + 1, a⟩) := by
  constructor
  · intro v n rest o i p a
    simp [exec]
  · intro n rest o i p a
    rfl

/-- C6, behavior of the code at the failing input: with nested regions, the
inner protected code signals 1 and the inner handler clause signals 2 before
its endcatch.  Because the inner node is popped only at endcatch, the longjmp
returns to the inner setjmp and the same inner handler runs again with
payload 2; the outer handler is never invoked.  The claim states the signal
must transfer to the next-enclosing region, which the code violates. -/
theorem c6_resignal_reenters_same_handler :
    exec 8 (.tryCatch (.tryCatch (.throwV (.vInt 1)) (fun c =>
        if c = some (.vInt 1) then .throwV (.vInt 2) else .print "inner handler ran again"))
      (fun _ => .print "outer handler ran")) ⟨[], [], 0, 0, []⟩
    = some (.normal ⟨[], ["inner handler ran again"], 2, 2, []⟩) := rfl

/-- C7: the endcatch pop-and-release runs exactly once per region activation
on every exit path of the documented protected-region construct.  First
conjunct: when the protected code completes normally the handler clause is
skipped (for every handler, no handler effect is observable) and exactly one
pop happens.  Second conjunct: when the protected code signals, the handler
clause runs and again exactly one pop happens, performed by the construct
itself even though the handler body (skip) contains no release call. -/
theorem c7_release_on_every_exit_path :
    (∀ (fuel : Nat) (h : Option Val → Stmt) (s : ExcState),
       exec (fuel+2) (.tryCatch .skip h) s
         = some (.normal ⟨s.stack, s.output, s.nextId + 1, s.pops + 1, s.allocs⟩)) ∧
    (∀ (fuel : Nat) (v : Val) (s : ExcState),
       exec (fuel+3) (.tryCatch (.throwV v) (fun _ => .skip)) s
         = some (.normal ⟨s.stack, s.output, s.nextId + 1, s.pops + 1, s.allocs⟩)) := by
  constructor
  · intro fuel h s
    simp [exec, endcatchS]
  · intro fuel v s
    simp [exec, handleLoopF, endcatchS]

/-- C8: on a non-empty Region Stack, endcatch removes exactly the current top
node and makes the next field of that node (the rest of the list) the new
top, empty when absent; on an empty stack it is a precondition violation (the
source dereferences a null pointer), modelled as none, never a signaled
condition; and across a whole protected-region activation the pop restores
the Region Stack to exactly its state before the region was entered. -/
theorem c8_endcatch_pops_top :
    (∀ (n : ExcNode) (rest : List ExcNode) (o : List String) (i p : Nat)
       (a : List exception_t),
       endcatchS ⟨n :: rest, o, i, p, a⟩ = some ⟨rest, o, i, p + 1, a⟩) ∧
    (∀ (o : List String) (i p : Nat) (a : List exception_t),
       endcatchS ⟨[], o, i, p, a⟩ = none) ∧
    (∀ (fuel : Nat) (body : Stmt) (h : Option Val → Stmt) (s s' : ExcState),
       exec fuel (.tryCatch body h) s = some (.normal s') → s'.stack = s.stack) := by
  refine ⟨fun n rest o i p a => rfl, fun o i p a => rfl, ?_⟩
  intro fuel body h s s' hrun
  exact (exec_ok fuel (.tryCatch body h) s).1 s' hrun

/-- Witness for C8 at a concrete input: a region entered on top of one open
region signals a string, the handler runs, and endcatch restores the stack to
exactly the one open region it started with. -/
theorem c8_endcatch_pops_top_witness :
    exec 6 (.tryCatch (.throwV (.vStr "E")) (fun _ => .skip)) ⟨[⟨7, none⟩], [], 8, 3, []⟩
      = some (.normal ⟨[⟨7, none⟩], [], 9, 4, []⟩) ∧
    (⟨[⟨7, none⟩], [], 9, 4, []⟩ : ExcState).stack
      = (⟨[⟨7, none⟩], [], 8, 3, []⟩ : ExcState).stack :=
  ⟨rfl, c8_endcatch_pops_top.2.2 6 (.throwV (.vStr "E")) (fun _ => .skip)
    ⟨[⟨7, none⟩], [], 8, 3, []⟩ ⟨[⟨7, none⟩], [], 9, 4, []⟩ rfl⟩

/-- Modelled from the spec: make-payload(name, reason, context) is the pure
construction of the structured payload.  In src the construction is inlined
in the raise_exception macro; the standalone constructor the demo drivers
call (new_exception) is not present under src. -/
def make_payload (nm r : String) (u : Nat) : Val := .vExc ⟨nm, r, u⟩

/-- Modelled from the spec: the only side effect of make-payload is the
allocation of the struct exception_t object, recorded in the ghost
allocation list. -/
def make_payload_alloc (nm r : String) (u : Nat) (s : ExcState) : ExcState :=
  { s with allocs := s.allocs ++ [⟨nm, r, u⟩] }

/-- C9: raise_exception(name, reason, userdata) is observationally equivalent
to allocating make-payload(name, reason, userdata) and then signaling it, and
the constructed payload carries exactly the given name, reason and userdata
with no other effect beyond the allocation. -/
theorem c9_raise_exception_equiv :
    (∀ (fuel : Nat) (nm r : String) (u : Nat) (s : ExcState),
       exec fuel (.raiseExc nm r u) s
         = exec fuel (.throwV (make_payload nm r u)) (make_payload_alloc nm r u s)) ∧
    (∀ (nm r : String) (u : Nat), ∃ e : exception_t,
       make_payload nm r u = .vExc e ∧ e.name = nm ∧ e.reason = r ∧ e.userdata = u) := by
  constructor
  · intro fuel nm r u s
    cases fuel with
    | zero => rfl
    | succ fuel =>
      cases hst : s.stack with
      | nil => simp [exec, make_payload, make_payload_alloc, hst]
      | cons n rest => simp [exec, make_payload, make_payload_alloc, hst]
  · intro nm r u
    exact ⟨⟨nm, r, u⟩, rfl, rfl, rfl, rfl⟩

/-- C10: when raise_exception runs with no active protected region, the
structured payload object is still constructed (the malloc happens before the
empty-stack check, so it is appended to the allocation list), it is stored in
no node (the stack is and stays empty), exactly the uncaught-signal
diagnostic is produced, and execution continues at the next statement. -/
theorem c10_structured_uncaught (fuel : Nat) (nm r : String) (u : Nat) (k : Stmt)
    (o : List String) (i p : Nat) (a : List exception_t) :
    exec (fuel+1) (.raiseExc nm r u) ⟨[], o, i, p, a⟩
      = some (.normal ⟨[], o ++ [uncaughtMsg], i, p, a ++ [⟨nm, r, u⟩]⟩) ∧
    exec (fuel+2) (.seq (.raiseExc nm r u) k) ⟨[], o, i, p, a⟩
      = exec (fuel+1) k ⟨[], o ++ [uncaughtMsg], i, p, a ++ [⟨nm, r, u⟩]⟩ := by
  constructor <;> simp [exec]
